import Mathlib

/-!
Verification of the `depend-info` command of vcpkg
(`toolsrc/src/vcpkg/commands.dependinfo.cpp`).

The command loads a registry of ports (each a `SourceControlFile` holding a
core paragraph with a name and a list of dependencies, plus feature
paragraphs with their own dependencies), optionally builds the transitive
dependency closure of the requested root names into a
`std::map<std::string, std::vector<std::string>>`, and renders either a
plain-text listing, a dot digraph, or a dgml (XML) digraph.

The embedding below translates each function of that file.  `std::map` with
`std::string` keys is modelled as an association list kept sorted by the
lexicographic order on strings (`string_lt`, the order of
`std::less<std::string>`; for valid UTF-8, byte-wise lexicographic order
coincides with code-point lexicographic order, so the comparison is done on
`String.data`).  A `Dependency` contributes only its `name()`, so
dependencies are modelled as plain `String`s.
-/

namespace DependInfo

/-- A core source paragraph of a port: its `name` and the names of its
direct (`core`) dependencies, in declaration order.  Mirrors the fields of
`SourceParagraph` that `commands.dependinfo.cpp` reads (`name`,
`depends`, each `Dependency` contributing `d.name()`). -/
structure SourceParagraph where
  name : String
  depends : List String
deriving DecidableEq, Repr

/-- A feature paragraph of a port: the feature name and the dependency
names it declares.  Only `depends` is read by the dgml renderer. -/
structure FeatureParagraph where
  name : String
  depends : List String
deriving DecidableEq, Repr

/-- A port definition: the core paragraph plus the feature paragraphs.
Mirrors the fields of `SourceControlFile` read by
`commands.dependinfo.cpp` (`core_paragraph`, `feature_paragraphs`). -/
structure SourceControlFile where
  core_paragraph : SourceParagraph
  feature_paragraphs : List FeatureParagraph
deriving DecidableEq, Repr

/-- The `std::map<std::string, std::vector<std::string>>` called
`dependency_tree` in the source, as a key-sorted association list. -/
abbrev ClosureMap := List (String × List String)

/-- Lexicographic comparison of character lists; the order used by
`std::less<std::string>` (byte order equals code-point order for UTF-8). -/
def charListLt : List Char → List Char → Bool
  | _, [] => false
  | [], _ :: _ => true
  | a :: as, b :: bs =>
    if a < b then true
    else if b < a then false
    else charListLt as bs

/-- The strict order on map keys used by `std::map<std::string, _>`. -/
def string_lt (a b : String) : Bool :=
  charListLt a.data b.data

/-- `Util::Sets::contains(dependency_tree, name)`: key membership. -/
def cmContains (m : ClosureMap) (n : String) : Bool :=
  m.any (fun e => e.1 = n)

/-- Insertion of a key/value pair at its sorted position, replacing an
equal key: the effect of `dependency_tree[name] = value;` on a
`std::map`. -/
def cmInsert (m : ClosureMap) (n : String) (v : List String) : ClosureMap :=
  match m with
  | [] => [(n, v)]
  | (k, w) :: rest =>
    if string_lt n k then (n, v) :: (k, w) :: rest
    else if n = k then (n, v) :: rest
    else (k, w) :: cmInsert rest n v

/-- The keys of a `ClosureMap`, in iteration order. -/
def cmKeys (m : ClosureMap) : List String :=
  m.map (fun e => e.1)

/-- `Util::find_if(source_control_files, ...name == dependency_name)`:
the first port whose core paragraph carries the given name. -/
def find_port (files : List SourceControlFile) (n : String) :
    Option SourceControlFile :=
  files.find? (fun f => f.core_paragraph.name = n)

/-- The names of all ports in the registry, in storage order. -/
def registryNames (files : List SourceControlFile) : List String :=
  files.map (fun f => f.core_paragraph.name)

/-- Number of registry names not yet present as keys: the termination
measure of the closure recursion. -/
def missingCount (files : List SourceControlFile) (tree : ClosureMap) : Nat :=
  ((registryNames files).filter (fun m => !(cmContains tree m))).length

theorem charListLt_iff_lt (as bs : List Char) : charListLt as bs = true ↔ as < bs := by
  induction as generalizing bs with
  | nil =>
    cases bs with
    | nil =>
      simp only [charListLt, Bool.false_eq_true, false_iff]
      intro h
      cases h
    | cons b bs =>
      simp only [charListLt, true_iff]
      exact List.Lex.nil
  | cons a as ih =>
    cases bs with
    | nil =>
      simp only [charListLt, Bool.false_eq_true, false_iff]
      intro h
      cases h
    | cons b bs =>
      simp only [charListLt]
      by_cases hab : a < b
      · simp only [hab, if_true, true_iff]
        exact List.Lex.rel hab
      · by_cases hba : b < a
        · simp only [hab, hba, if_true, if_false, Bool.false_eq_true, false_iff]
          intro h
          cases h with
          | rel h => exact hab h
          | cons h => exact lt_irrefl a hba
        · simp only [hab, hba, if_false]
          have hEq : a = b := le_antisymm (not_lt.mp hba) (not_lt.mp hab)
          subst hEq
          rw [ih]
          constructor
          · intro h
            exact List.Lex.cons h
          · intro h
            cases h with
            | rel h => exact absurd h hab
            | cons h => exact h

theorem string_lt_iff_lt (a b : String) : string_lt a b = true ↔ a < b := by
  rw [string_lt, String.lt_iff_toList_lt]
  exact charListLt_iff_lt a.data b.data

theorem cmContains_nil (n : String) : cmContains [] n = false := by
  simp [cmContains]

theorem cmContains_cons (k : String) (w : List String) (rest : ClosureMap) (n : String) :
    cmContains ((k, w) :: rest) n = (decide (k = n) || cmContains rest n) := by
  simp [cmContains, List.any_cons]

theorem cmContains_cmInsert_self (m : ClosureMap) (n : String) (v : List String) :
    cmContains (cmInsert m n v) n = true := by
  induction m with
  | nil => simp [cmInsert, cmContains]
  | cons e rest ih =>
    obtain ⟨k, w⟩ := e
    simp only [cmInsert]
    split
    · simp [cmContains]
    · split
      · simp [cmContains]
      · simp only [cmContains, List.any_cons, Bool.or_eq_true]
        right
        simpa [cmContains] using ih

theorem cmContains_cmInsert_mono {m : ClosureMap} {k : String} (n : String) (v : List String)
    (h : cmContains m k = true) : cmContains (cmInsert m n v) k = true := by
  induction m with
  | nil => simp [cmContains] at h
  | cons e rest ih =>
    obtain ⟨k', w⟩ := e
    rw [cmContains_cons] at h
    simp only [Bool.or_eq_true, decide_eq_true_eq] at h
    simp only [cmInsert]
    split
    · rw [cmContains_cons, cmContains_cons]
      simp only [Bool.or_eq_true, decide_eq_true_eq]
      tauto
    · split
      · next heq =>
        rw [cmContains_cons]
        simp only [Bool.or_eq_true, decide_eq_true_eq]
        subst heq
        tauto
      · rw [cmContains_cons]
        simp only [Bool.or_eq_true, decide_eq_true_eq]
        rcases h with h | h
        · tauto
        · right
          exact ih h

theorem length_filter_le_of_imp {α : Type} {p q : α → Bool}
    (h : ∀ a, q a = true → p a = true) (l : List α) :
    (l.filter q).length ≤ (l.filter p).length := by
  induction l with
  | nil => simp
  | cons a rest ih =>
    by_cases hq : q a = true
    · rw [List.filter_cons_of_pos hq, List.filter_cons_of_pos (h a hq)]
      simpa using ih
    · rw [List.filter_cons_of_neg (by simpa using hq)]
      by_cases hp : p a = true
      · rw [List.filter_cons_of_pos hp]
        exact Nat.le_succ_of_le ih
      · rw [List.filter_cons_of_neg (by simpa using hp)]
        exact ih

theorem length_filter_lt_of_imp {α : Type} {p q : α → Bool}
    (h : ∀ a, q a = true → p a = true) {l : List α} {x : α}
    (hx : x ∈ l) (hpx : p x = true) (hqx : q x = false) :
    (l.filter q).length < (l.filter p).length := by
  induction l with
  | nil => simp at hx
  | cons a rest ih =>
    rcases List.mem_cons.mp hx with rfl | hx'
    · rw [List.filter_cons_of_pos hpx, List.filter_cons_of_neg (by simp [hqx])]
      exact Nat.lt_succ_of_le (length_filter_le_of_imp h rest)
    · by_cases hq : q a = true
      · rw [List.filter_cons_of_pos hq, List.filter_cons_of_pos (h a hq)]
        simpa using ih hx'
      · rw [List.filter_cons_of_neg (by simpa using hq)]
        by_cases hp : p a = true
        · rw [List.filter_cons_of_pos hp]
          exact Nat.lt_succ_of_lt (ih hx')
        · rw [List.filter_cons_of_neg (by simpa using hp)]
          exact ih hx'

theorem mem_registryNames_of_find_port {files : List SourceControlFile} {n : String}
    {f : SourceControlFile} (h : find_port files n = some f) : n ∈ registryNames files := by
  have hmem : f ∈ files := List.mem_of_find?_eq_some h
  have hname : f.core_paragraph.name = n := by
    have := List.find?_some h
    simpa using this
  exact hname ▸ List.mem_map_of_mem _ hmem

theorem find_port_eq_none_iff {files : List SourceControlFile} {n : String} :
    find_port files n = none ↔ n ∉ registryNames files := by
  rw [find_port, List.find?_eq_none]
  constructor
  · intro h hmem
    obtain ⟨f, hf, hname⟩ := List.mem_map.mp hmem
    exact absurd (by simpa using hname) (by simpa using h f hf)
  · intro h f hf
    simp only [decide_eq_true_eq]
    intro hname
    exact h (hname ▸ List.mem_map_of_mem _ hf)

theorem missingCount_lt (files : List SourceControlFile) {tree : ClosureMap} {n : String}
    {f : SourceControlFile} (hc : cmContains tree n = false) (hf : find_port files n = some f)
    (v : List String) :
    missingCount files (cmInsert tree n v) < missingCount files tree := by
  apply length_filter_lt_of_imp
  · intro a ha
    simp only [Bool.not_eq_true'] at ha ⊢
    by_contra hcontra
    simp only [Bool.not_eq_false] at hcontra
    have := cmContains_cmInsert_mono n v hcontra
    simp [this] at ha
  · exact mem_registryNames_of_find_port hf
  · simp [hc]
  · simp [cmContains_cmInsert_self]

theorem missingCount_le_of_mono (files : List SourceControlFile) {t t' : ClosureMap}
    (h : ∀ k, cmContains t k = true → cmContains t' k = true) :
    missingCount files t' ≤ missingCount files t := by
  apply length_filter_le_of_imp
  intro a ha
  simp only [Bool.not_eq_true'] at ha ⊢
  by_contra hcontra
  simp only [Bool.not_eq_false] at hcontra
  simp [h a hcontra] at ha

/-- The recursion of `build_dependency_tree`: for each name in `names` not
yet a key, look the port up; if found, store its dependency names under
the key and recurse into that freshly stored list, then continue with the
remaining names.  The result carries the proof that existing keys are
preserved, which bounds the `missingCount` measure across the nested
recursive call. -/
def buildAux (files : List SourceControlFile) :
    (names : List String) → (tree : ClosureMap) →
    { t : ClosureMap // ∀ k, cmContains tree k = true → cmContains t k = true }
  | [], tree => ⟨tree, fun _ h => h⟩
  | n :: rest, tree =>
    if hc : cmContains tree n then
      buildAux files rest tree
    else
      match hf : find_port files n with
      | none => buildAux files rest tree
      | some f =>
        let r1 := buildAux files f.core_paragraph.depends
          (cmInsert tree n f.core_paragraph.depends)
        let r2 := buildAux files rest r1.1
        ⟨r2.1, fun k hk =>
          r2.2 k (r1.2 k (cmContains_cmInsert_mono n f.core_paragraph.depends hk))⟩
  termination_by names tree => (missingCount files tree, names.length)
  decreasing_by
  · apply Prod.Lex.right
    simp [Nat.lt_succ_self]
  · apply Prod.Lex.right
    simp [Nat.lt_succ_self]
  · apply Prod.Lex.left
    exact missingCount_lt files (by simpa using hc) hf _
  · apply Prod.Lex.left
    calc missingCount files r1.1
        ≤ missingCount files (cmInsert tree n f.core_paragraph.depends) :=
          missingCount_le_of_mono files r1.2
      _ < missingCount files tree := missingCount_lt files (by simpa using hc) hf _

/-- `build_dependency_tree(dependency_tree, dependency_names,
source_control_files)` of `commands.dependinfo.cpp`, with the in/out map
parameter returned. -/
def build_dependency_tree (dependency_tree : ClosureMap) (dependency_names : List String)
    (files : List SourceControlFile) : ClosureMap :=
  (buildAux files dependency_names dependency_tree).1

theorem build_nil (tree : ClosureMap) (files : List SourceControlFile) :
    build_dependency_tree tree [] files = tree := by
  simp [build_dependency_tree, buildAux]

theorem build_cons_mem {tree : ClosureMap} {n : String} (rest : List String)
    (files : List SourceControlFile) (hc : cmContains tree n = true) :
    build_dependency_tree tree (n :: rest) files = build_dependency_tree tree rest files := by
  rw [build_dependency_tree, buildAux]
  simp [hc, build_dependency_tree]

theorem build_cons_none {tree : ClosureMap} {n : String} (rest : List String)
    {files : List SourceControlFile} (hc : cmContains tree n = false)
    (hf : find_port files n = none) :
    build_dependency_tree tree (n :: rest) files = build_dependency_tree tree rest files := by
  rw [build_dependency_tree, buildAux]
  simp only [hc, Bool.false_eq_true, dite_false]
  split
  · rfl
  · next f heq =>
    rw [hf] at heq
    exact absurd heq (by simp)

theorem build_cons_some {tree : ClosureMap} {n : String} (rest : List String)
    {files : List SourceControlFile} {f : SourceControlFile}
    (hc : cmContains tree n = false) (hf : find_port files n = some f) :
    build_dependency_tree tree (n :: rest) files =
      build_dependency_tree
        (build_dependency_tree (cmInsert tree n f.core_paragraph.depends)
          f.core_paragraph.depends files)
        rest files := by
  rw [build_dependency_tree, buildAux]
  simp only [hc, Bool.false_eq_true, dite_false]
  split
  · next heq =>
    rw [hf] at heq
    exact absurd heq (by simp)
  · next f' heq =>
    rw [hf] at heq
    obtain rfl : f = f' := by injection heq
    rfl

theorem cmContains_build_mono {tree : ClosureMap} {k : String} (names : List String)
    (files : List SourceControlFile) (h : cmContains tree k = true) :
    cmContains (build_dependency_tree tree names files) k = true :=
  (buildAux files names tree).2 k h

/-- `replace_dashes_with_underscore`: `std::replace` of `'-'` by `'_'`
over the characters of the string. -/
def replace_dashes_with_underscore (input : String) : String :=
  ⟨input.data.map (fun c => if c = '-' then '_' else c)⟩

/-- Concatenation of a list of strings, used to state the closed forms of
the accumulating renderer loops. -/
def strConcat : List String → String
  | [] => ""
  | s :: rest => s ++ strConcat rest

/-- Modelled from the spec: `Strings::join(", ", ...)` (declared in
`vcpkg/base/strings.h`, implementation not part of the sample) joins the
elements with the delimiter between consecutive elements. -/
def strings_join (delimiter : String) (v : List String) : String :=
  String.intercalate delimiter v

/-- `Strings::format("%s;", name)`: a dot node statement. -/
def dotNodeStatement (name : String) : String :=
  name ++ ";"

/-- `Strings::format("%s -> %s;", name, dependency_name)`: a dot edge
statement. -/
def dotEdgeStatement (name dependency_name : String) : String :=
  name ++ " -> " ++ dependency_name ++ ";"

/-- `Strings::format("empty [label=\"%d singletons...\"]; }", n)`: the
trailing synthetic dot node labelled with the singleton count. -/
def dotEmptyNode (count : Nat) : String :=
  "empty [label=\"" ++ toString count ++ " singletons...\"]; \x7d"

/-- `Strings::format("<Node Id=\"%s\" />", name)`: a dgml node element. -/
def dgmlNodeString (name : String) : String :=
  "<Node Id=\"" ++ name ++ "\" />"

/-- `Strings::format("<Link Source=\"%s\" Target=\"%s\" />", name, d.name())`:
a dgml link element. -/
def dgmlLinkString (name dependency_name : String) : String :=
  "<Link Source=\"" ++ name ++ "\" Target=\"" ++ dependency_name ++ "\" />"

/-- `create_dot_as_string`: the header, then for each port either a bump
of the empty-node counter (dependency list empty) or the node statement
followed by one edge statement per dependency, names dash-normalized;
finally the synthetic `empty` node carrying the counter. -/
def create_dot_as_string (source_control_files : List SourceControlFile) : String :=
  let start : Nat × String :=
    (0, "digraph G\x7b rankdir=LR; edge [minlen=3]; overlap=false;")
  let acc := source_control_files.foldl
    (fun (acc : Nat × String) source_control_file =>
      let source_paragraph := source_control_file.core_paragraph
      if source_paragraph.depends.isEmpty then
        (acc.1 + 1, acc.2)
      else
        let name := replace_dashes_with_underscore source_paragraph.name
        (acc.1,
          source_paragraph.depends.foldl
            (fun s d => s ++ dotEdgeStatement name (replace_dashes_with_underscore d))
            (acc.2 ++ dotNodeStatement name)))
    start
  acc.2 ++ dotEmptyNode acc.1

/-- `create_dgml_as_string`: XML header and root element, then one node
element per port (original name) accumulated into `nodes` while one link
element per core dependency and per feature dependency is accumulated
into `links`; nodes are emitted before links, in separate containers. -/
def create_dgml_as_string (source_control_files : List SourceControlFile) : String :=
  let s := "<?xml version=\"1.0\" encoding=\"utf-8\"?>" ++
    "<DirectedGraph xmlns=\"http://schemas.microsoft.com/vs/2009/dgml\">"
  let acc := source_control_files.foldl
    (fun (acc : String × String) source_control_file =>
      let source_paragraph := source_control_file.core_paragraph
      let name := source_paragraph.name
      let nodes := acc.1 ++ dgmlNodeString name
      let links := source_paragraph.depends.foldl
        (fun l d => l ++ dgmlLinkString name d) acc.2
      let links2 := source_control_file.feature_paragraphs.foldl
        (fun l feature_paragraph =>
          feature_paragraph.depends.foldl
            (fun l2 d => l2 ++ dgmlLinkString name d) l)
        links
      (nodes, links2))
    ("", "")
  s ++ ("<Nodes>" ++ acc.1 ++ "</Nodes>") ++ ("<Links>" ++ acc.2 ++ "</Links>") ++
    "</DirectedGraph>"

/-- The `--dot` switch literal. -/
def OPTION_DOT : String := "--dot"

/-- The `--dgml` switch literal. -/
def OPTION_DGML : String := "--dgml"

/-- `create_graph_as_string`: dot if the `--dot` switch is present, else
dgml if the `--dgml` switch is present, else the empty string.  The
`std::unordered_set` of present switches is modelled as a list queried by
membership. -/
def create_graph_as_string (switches : List String)
    (source_control_files : List SourceControlFile) : String :=
  if switches.contains OPTION_DOT then
    create_dot_as_string source_control_files
  else if switches.contains OPTION_DGML then
    create_dgml_as_string source_control_files
  else ""

/-- One line of the plain-text listing:
`System::println("%s: %s", name, Strings::join(", ", deps))`. -/
def depend_line (name : String) (deps : List String) : String :=
  name ++ ": " ++ strings_join ", " deps

/-- The lines printed by `perform_and_exit` after argument parsing and
port loading: with at least one positional argument the dependency tree of
those roots is built and either the selected graph of the loaded registry
is printed (switches present) or one line per tree entry; with no
positional argument either the graph is printed or one line per loaded
port.  Process exit is external. -/
def perform_output (command_arguments : List String) (switches : List String)
    (source_control_files : List SourceControlFile) : List String :=
  if 1 ≤ command_arguments.length then
    let dependency_tree := build_dependency_tree [] command_arguments source_control_files
    if switches.isEmpty then
      dependency_tree.map (fun dependency => depend_line dependency.1 dependency.2)
    else
      [create_graph_as_string switches source_control_files]
  else
    if switches.isEmpty then
      source_control_files.map
        (fun f => depend_line f.core_paragraph.name f.core_paragraph.depends)
    else
      [create_graph_as_string switches source_control_files]

/-- Per-port closed form of the dot body: nothing for a port without
dependencies, otherwise its node statement and its edge statements. -/
def dotPortString (source_paragraph : SourceParagraph) : String :=
  if source_paragraph.depends.isEmpty then ""
  else
    dotNodeStatement (replace_dashes_with_underscore source_paragraph.name) ++
      strConcat (source_paragraph.depends.map (fun d =>
        dotEdgeStatement (replace_dashes_with_underscore source_paragraph.name)
          (replace_dashes_with_underscore d)))

/-- The ports with an empty dependency list ("singletons" of the dot
rendering). -/
def singletonCount (files : List SourceControlFile) : Nat :=
  (files.filter (fun f => f.core_paragraph.depends.isEmpty)).length

/-- Per-port closed form of the dgml link section: one link per core
dependency, then one link per feature dependency, all with the port's
original name as source. -/
def dgmlLinksString (f : SourceControlFile) : String :=
  strConcat (f.core_paragraph.depends.map (dgmlLinkString f.core_paragraph.name)) ++
    strConcat (f.feature_paragraphs.map (fun feature_paragraph =>
      strConcat (feature_paragraph.depends.map (dgmlLinkString f.core_paragraph.name))))

/-- Registry with the cycle A → B → A of the termination claim. -/
def cycleRegistry : List SourceControlFile :=
  [⟨⟨"A", ["B"]⟩, []⟩, ⟨⟨"B", ["A"]⟩, []⟩]

/-- Registry for the plain-text rendering claim: `foo` with two
dependencies (absent from the registry) and `lonely` with none. -/
def fooRegistry : List SourceControlFile :=
  [⟨⟨"foo", ["bar", "baz"]⟩, []⟩, ⟨⟨"lonely", []⟩, []⟩]

/-- Two independent ports; the closure of root `a` excludes `b`. -/
def twoSingletonRegistry : List SourceControlFile :=
  [⟨⟨"a", []⟩, []⟩, ⟨⟨"b", []⟩, []⟩]

/-- Registry whose storage order is not ascending by name. -/
def unsortedRegistry : List SourceControlFile :=
  [⟨⟨"b", []⟩, []⟩, ⟨⟨"a", []⟩, []⟩]

/-- A registry holding a single port named `a`. -/
def singlePortRegistry : List SourceControlFile :=
  [⟨⟨"a", []⟩, []⟩]

/-- The dot scenario registry of the spec: `A` depends on `B`, `C` is a
singleton. -/
def dotSpecRegistry : List SourceControlFile :=
  [⟨⟨"A", ["B"]⟩, []⟩, ⟨⟨"C", []⟩, []⟩]

/-- A registry with dashes in the port and dependency names. -/
def dashRegistry : List SourceControlFile :=
  [⟨⟨"my-lib", ["other-lib"]⟩, []⟩]

/-- The dgml scenario registry of the spec: `A` depends on `B` and its
feature `ssl` depends on `C`. -/
def featureRegistry : List SourceControlFile :=
  [⟨⟨"A", ["B"]⟩, [⟨"ssl", ["C"]⟩]⟩]

/-- A port whose name and dependency contain XML-special characters. -/
def specialFile : SourceControlFile :=
  ⟨⟨"a\"b&c", ["d\"e"]⟩, []⟩

/-- Registry holding only `specialFile`. -/
def specialRegistry : List SourceControlFile :=
  [specialFile]

theorem foldl_append_eq {α : Type} (g : α → String) :
    ∀ (l : List α) (s : String),
      l.foldl (fun acc x => acc ++ g x) s = s ++ strConcat (l.map g) := by
  intro l
  induction l with
  | nil =>
    intro s
    rw [List.foldl_nil, List.map_nil, strConcat]
    exact (String.append_empty s).symm
  | cons a rest ih =>
    intro s
    rw [List.foldl_cons, ih, List.map_cons, strConcat, ← String.append_assoc]

theorem singletonCount_cons_pos {f : SourceControlFile} (rest : List SourceControlFile)
    (h : f.core_paragraph.depends.isEmpty = true) :
    singletonCount (f :: rest) = singletonCount rest + 1 := by
  simp [singletonCount, List.filter_cons, h]

theorem singletonCount_cons_neg {f : SourceControlFile} (rest : List SourceControlFile)
    (h : f.core_paragraph.depends.isEmpty = false) :
    singletonCount (f :: rest) = singletonCount rest := by
  simp [singletonCount, List.filter_cons, h]

theorem dot_foldl_eq :
    ∀ (files : List SourceControlFile) (cnt : Nat) (s : String),
      files.foldl
        (fun (acc : Nat × String) source_control_file =>
          let source_paragraph := source_control_file.core_paragraph
          if source_paragraph.depends.isEmpty then
            (acc.1 + 1, acc.2)
          else
            let name := replace_dashes_with_underscore source_paragraph.name
            (acc.1,
              source_paragraph.depends.foldl
                (fun s d => s ++ dotEdgeStatement name (replace_dashes_with_underscore d))
                (acc.2 ++ dotNodeStatement name)))
        (cnt, s) =
      (cnt + singletonCount files,
        s ++ strConcat (files.map (fun f => dotPortString f.core_paragraph))) := by
  intro files
  induction files with
  | nil =>
    intro cnt s
    rw [List.foldl_nil, List.map_nil, strConcat, singletonCount, List.filter_nil,
      List.length_nil]
    rw [String.append_empty]
    rfl
  | cons f rest ih =>
    intro cnt s
    rw [List.foldl_cons]
    by_cases h : f.core_paragraph.depends.isEmpty = true
    · simp only [h, if_true]
      rw [ih, singletonCount_cons_pos rest h, List.map_cons, strConcat]
      have h1 : dotPortString f.core_paragraph = "" := by
        rw [dotPortString, if_pos h]
      rw [h1, String.empty_append]
      simp only [Prod.mk.injEq]
      exact ⟨by omega, trivial⟩
    · simp only [h, if_false, Bool.false_eq_true]
      rw [foldl_append_eq, ih, singletonCount_cons_neg rest (by simpa using h),
        List.map_cons, strConcat]
      have h1 : dotPortString f.core_paragraph =
          dotNodeStatement (replace_dashes_with_underscore f.core_paragraph.name) ++
            strConcat (f.core_paragraph.depends.map (fun d =>
              dotEdgeStatement (replace_dashes_with_underscore f.core_paragraph.name)
                (replace_dashes_with_underscore d))) := by
        rw [dotPortString, if_neg (by simpa using h)]
      rw [h1]
      simp [String.append_assoc]

theorem create_dot_eq (files : List SourceControlFile) :
    create_dot_as_string files =
      "digraph G\x7b rankdir=LR; edge [minlen=3]; overlap=false;" ++
        strConcat (files.map (fun f => dotPortString f.core_paragraph)) ++
        dotEmptyNode (singletonCount files) := by
  rw [create_dot_as_string]
  simp only [dot_foldl_eq, Nat.zero_add, String.append_assoc]

theorem feature_foldl_eq (name : String) :
    ∀ (fps : List FeatureParagraph) (L : String),
      fps.foldl
        (fun l feature_paragraph =>
          feature_paragraph.depends.foldl (fun l2 d => l2 ++ dgmlLinkString name d) l)
        L =
      L ++ strConcat (fps.map (fun fp =>
        strConcat (fp.depends.map (dgmlLinkString name)))) := by
  intro fps
  induction fps with
  | nil =>
    intro L
    rw [List.foldl_nil, List.map_nil, strConcat]
    exact (String.append_empty L).symm
  | cons fp rest ih =>
    intro L
    rw [List.foldl_cons, foldl_append_eq (dgmlLinkString name) fp.depends L, ih,
      List.map_cons, strConcat, ← String.append_assoc]

theorem dgml_foldl_eq :
    ∀ (files : List SourceControlFile) (ns ls : String),
      files.foldl
        (fun (acc : String × String) source_control_file =>
          let source_paragraph := source_control_file.core_paragraph
          let name := source_paragraph.name
          let nodes := acc.1 ++ dgmlNodeString name
          let links := source_paragraph.depends.foldl
            (fun l d => l ++ dgmlLinkString name d) acc.2
          let links2 := source_control_file.feature_paragraphs.foldl
            (fun l feature_paragraph =>
              feature_paragraph.depends.foldl
                (fun l2 d => l2 ++ dgmlLinkString name d) l)
            links
          (nodes, links2))
        (ns, ls) =
      (ns ++ strConcat (files.map (fun f => dgmlNodeString f.core_paragraph.name)),
        ls ++ strConcat (files.map dgmlLinksString)) := by
  intro files
  induction files with
  | nil =>
    intro ns ls
    rw [List.foldl_nil, List.map_nil, List.map_nil, strConcat]
    rw [String.append_empty, String.append_empty]
  | cons f rest ih =>
    intro ns ls
    rw [List.foldl_cons]
    simp only []
    rw [foldl_append_eq (dgmlLinkString f.core_paragraph.name) f.core_paragraph.depends ls,
      feature_foldl_eq f.core_paragraph.name f.feature_paragraphs, ih,
      List.map_cons, List.map_cons, strConcat, strConcat]
    have h1 : dgmlLinksString f =
        strConcat (f.core_paragraph.depends.map (dgmlLinkString f.core_paragraph.name)) ++
          strConcat (f.feature_paragraphs.map (fun feature_paragraph =>
            strConcat (feature_paragraph.depends.map
              (dgmlLinkString f.core_paragraph.name)))) := rfl
    rw [h1]
    simp [String.append_assoc]

theorem create_dgml_eq (files : List SourceControlFile) :
    create_dgml_as_string files =
      ("<?xml version=\"1.0\" encoding=\"utf-8\"?>" ++
        "<DirectedGraph xmlns=\"http://schemas.microsoft.com/vs/2009/dgml\">") ++
        ("<Nodes>" ++
          strConcat (files.map (fun f => dgmlNodeString f.core_paragraph.name)) ++
          "</Nodes>") ++
        ("<Links>" ++ strConcat (files.map dgmlLinksString) ++ "</Links>") ++
        "</DirectedGraph>" := by
  rw [create_dgml_as_string]
  simp only [dgml_foldl_eq, String.empty_append]

theorem cmContains_cmInsert_elim {m : ClosureMap} {n k : String} {v : List String}
    (h : cmContains (cmInsert m n v) k = true) : k = n ∨ cmContains m k = true := by
  induction m with
  | nil =>
    rw [cmInsert, cmContains_cons] at h
    simp only [cmContains_nil, Bool.or_false, decide_eq_true_eq] at h
    exact Or.inl h.symm
  | cons e rest ih =>
    obtain ⟨k', w⟩ := e
    simp only [cmInsert] at h
    split at h
    · rw [cmContains_cons, cmContains_cons] at h
      simp only [Bool.or_eq_true, decide_eq_true_eq] at h
      rcases h with h | h | h
      · exact Or.inl h.symm
      · exact Or.inr (by rw [cmContains_cons]; simp [h])
      · exact Or.inr (by rw [cmContains_cons]; simp [h])
    · split at h
      · next heq =>
        rw [cmContains_cons] at h
        simp only [Bool.or_eq_true, decide_eq_true_eq] at h
        rcases h with h | h
        · exact Or.inl h.symm
        · exact Or.inr (by rw [cmContains_cons]; simp [h])
      · rw [cmContains_cons] at h
        simp only [Bool.or_eq_true, decide_eq_true_eq] at h
        rcases h with h | h
        · exact Or.inr (by rw [cmContains_cons]; simp [h])
        · rcases ih h with h' | h'
          · exact Or.inl h'
          · exact Or.inr (by rw [cmContains_cons]; simp [h'])

theorem cmContains_iff_mem_cmKeys {m : ClosureMap} {k : String} :
    cmContains m k = true ↔ k ∈ cmKeys m := by
  rw [cmContains, cmKeys, List.any_eq_true]
  constructor
  · rintro ⟨e, he, hk⟩
    simp only [decide_eq_true_eq] at hk
    exact hk ▸ List.mem_map_of_mem _ he
  · intro hmem
    obtain ⟨e, he, hk⟩ := List.mem_map.mp hmem
    exact ⟨e, he, by simp [hk]⟩

theorem mem_cmKeys_cmInsert_elim {m : ClosureMap} {n x : String} {v : List String}
    (h : x ∈ cmKeys (cmInsert m n v)) : x = n ∨ x ∈ cmKeys m := by
  rcases cmContains_cmInsert_elim (cmContains_iff_mem_cmKeys.mpr h) with h' | h'
  · exact Or.inl h'
  · exact Or.inr (cmContains_iff_mem_cmKeys.mp h')

theorem sorted_cmKeys_cmInsert {m : ClosureMap} (n : String) (v : List String)
    (h : List.Sorted (· < ·) (cmKeys m)) :
    List.Sorted (· < ·) (cmKeys (cmInsert m n v)) := by
  induction m with
  | nil => simp [cmInsert, cmKeys]
  | cons e rest ih =>
    obtain ⟨k, w⟩ := e
    simp only [cmKeys, List.map_cons] at h
    have htail : List.Sorted (· < ·) (cmKeys rest) := (List.sorted_cons.mp h).2
    have hhead : ∀ b ∈ cmKeys rest, k < b := (List.sorted_cons.mp h).1
    simp only [cmInsert]
    split
    · next hlt =>
      have hnk : n < k := (string_lt_iff_lt n k).mp hlt
      simp only [cmKeys, List.map_cons]
      refine List.sorted_cons.mpr ⟨?_, h⟩
      intro b hb
      rcases List.mem_cons.mp hb with rfl | hb'
      · exact hnk
      · exact lt_trans hnk (hhead b hb')
    · next hlt =>
      split
      · next heq =>
        subst heq
        simp only [cmKeys, List.map_cons]
        exact List.sorted_cons.mpr ⟨hhead, htail⟩
      · next hne =>
        have hkn : k < n := by
          have h1 : ¬ n < k := fun hc =>
            absurd ((string_lt_iff_lt n k).mpr hc) (by simpa using hlt)
          exact lt_of_le_of_ne (not_lt.mp h1) (Ne.symm hne)
        simp only [cmKeys, List.map_cons]
        refine List.sorted_cons.mpr ⟨?_, ih htail⟩
        intro b hb
        rcases mem_cmKeys_cmInsert_elim (by simpa [cmKeys] using hb) with rfl | hb'
        · exact hkn
        · exact hhead b hb'

theorem missingCount_pos {files : List SourceControlFile} {tree : ClosureMap} {n : String}
    {f : SourceControlFile} (hc : cmContains tree n = false)
    (hf : find_port files n = some f) : 1 ≤ missingCount files tree := by
  rw [missingCount]
  have hmem : n ∈ (registryNames files).filter (fun m => !(cmContains tree m)) :=
    List.mem_filter.mpr ⟨mem_registryNames_of_find_port hf, by simp [hc]⟩
  exact List.length_pos.mpr (List.ne_nil_of_mem hmem)

theorem build_keys_bound_aux (files : List SourceControlFile) :
    ∀ (fuel : Nat) (names : List String) (tree : ClosureMap),
      missingCount files tree ≤ fuel →
      ∀ k, cmContains (build_dependency_tree tree names files) k = true →
        cmContains tree k = true ∨ k ∈ registryNames files := by
  intro fuel
  induction fuel with
  | zero =>
    intro names
    induction names with
    | nil =>
      intro tree _ k h
      rw [build_nil] at h
      exact Or.inl h
    | cons n rest ihn =>
      intro tree hmc k h
      by_cases hc : cmContains tree n = true
      · rw [build_cons_mem rest files hc] at h
        exact ihn tree hmc k h
      · have hc' : cmContains tree n = false := by simpa using hc
        match hf : find_port files n with
        | none =>
          rw [build_cons_none rest hc' hf] at h
          exact ihn tree hmc k h
        | some f =>
          have := missingCount_pos hc' hf
          omega
  | succ m ihm =>
    intro names
    induction names with
    | nil =>
      intro tree _ k h
      rw [build_nil] at h
      exact Or.inl h
    | cons n rest ihn =>
      intro tree hmc k h
      by_cases hc : cmContains tree n = true
      · rw [build_cons_mem rest files hc] at h
        exact ihn tree hmc k h
      · have hc' : cmContains tree n = false := by simpa using hc
        match hf : find_port files n with
        | none =>
          rw [build_cons_none rest hc' hf] at h
          exact ihn tree hmc k h
        | some f =>
          rw [build_cons_some rest hc' hf] at h
          have hm1 : missingCount files (cmInsert tree n f.core_paragraph.depends) ≤ m := by
            have := missingCount_lt files hc' hf f.core_paragraph.depends
            omega
          have hm2 :
              missingCount files
                (build_dependency_tree (cmInsert tree n f.core_paragraph.depends)
                  f.core_paragraph.depends files) ≤ m := by
            have hmono : missingCount files
                (build_dependency_tree (cmInsert tree n f.core_paragraph.depends)
                  f.core_paragraph.depends files) ≤
                missingCount files (cmInsert tree n f.core_paragraph.depends) :=
              missingCount_le_of_mono files
                (fun k hk => cmContains_build_mono f.core_paragraph.depends files hk)
            omega
          rcases ihm rest _ hm2 k h with h2 | h2
          · rcases ihm f.core_paragraph.depends _ hm1 k h2 with h3 | h3
            · rcases cmContains_cmInsert_elim h3 with rfl | h4
              · exact Or.inr (mem_registryNames_of_find_port hf)
              · exact Or.inl h4
            · exact Or.inr h3
          · exact Or.inr h2

theorem cmContains_build_elim {files : List SourceControlFile} {tree : ClosureMap}
    {names : List String} {k : String}
    (h : cmContains (build_dependency_tree tree names files) k = true) :
    cmContains tree k = true ∨ k ∈ registryNames files :=
  build_keys_bound_aux files (missingCount files tree) names tree le_rfl k h

theorem build_sorted_aux (files : List SourceControlFile) :
    ∀ (fuel : Nat) (names : List String) (tree : ClosureMap),
      missingCount files tree ≤ fuel →
      List.Sorted (· < ·) (cmKeys tree) →
      List.Sorted (· < ·) (cmKeys (build_dependency_tree tree names files)) := by
  intro fuel
  induction fuel with
  | zero =>
    intro names
    induction names with
    | nil =>
      intro tree _ hs
      rw [build_nil]
      exact hs
    | cons n rest ihn =>
      intro tree hmc hs
      by_cases hc : cmContains tree n = true
      · rw [build_cons_mem rest files hc]
        exact ihn tree hmc hs
      · have hc' : cmContains tree n = false := by simpa using hc
        match hf : find_port files n with
        | none =>
          rw [build_cons_none rest hc' hf]
          exact ihn tree hmc hs
        | some f =>
          have := missingCount_pos hc' hf
          omega
  | succ m ihm =>
    intro names
    induction names with
    | nil =>
      intro tree _ hs
      rw [build_nil]
      exact hs
    | cons n rest ihn =>
      intro tree hmc hs
      by_cases hc : cmContains tree n = true
      · rw [build_cons_mem rest files hc]
        exact ihn tree hmc hs
      · have hc' : cmContains tree n = false := by simpa using hc
        match hf : find_port files n with
        | none =>
          rw [build_cons_none rest hc' hf]
          exact ihn tree hmc hs
        | some f =>
          rw [build_cons_some rest hc' hf]
          have hm1 : missingCount files (cmInsert tree n f.core_paragraph.depends) ≤ m := by
            have := missingCount_lt files hc' hf f.core_paragraph.depends
            omega
          have hm2 :
              missingCount files
                (build_dependency_tree (cmInsert tree n f.core_paragraph.depends)
                  f.core_paragraph.depends files) ≤ m := by
            have hmono : missingCount files
                (build_dependency_tree (cmInsert tree n f.core_paragraph.depends)
                  f.core_paragraph.depends files) ≤
                missingCount files (cmInsert tree n f.core_paragraph.depends) :=
              missingCount_le_of_mono files
                (fun k hk => cmContains_build_mono f.core_paragraph.depends files hk)
            omega
          exact ihm rest _ hm2
            (ihm f.core_paragraph.depends _ hm1 (sorted_cmKeys_cmInsert n _ hs))

theorem build_sorted (files : List SourceControlFile) (names : List String) :
    List.Sorted (· < ·) (cmKeys (build_dependency_tree [] names files)) :=
  build_sorted_aux files (missingCount files []) names [] le_rfl (by simp [cmKeys])

theorem strConcat_decomp {α : Type} (g : α → String) {l : List α} {x : α} (hx : x ∈ l) :
    ∃ s t, strConcat (l.map g) = s ++ g x ++ t := by
  induction l with
  | nil => simp at hx
  | cons a rest ih =>
    rcases List.mem_cons.mp hx with rfl | hx'
    · refine ⟨"", strConcat (rest.map g), ?_⟩
      rw [List.map_cons, strConcat, String.empty_append]
    · obtain ⟨s, t, hst⟩ := ih hx'
      refine ⟨g a ++ s, t, ?_⟩
      rw [List.map_cons, strConcat, hst]
      simp [String.append_assoc]

theorem exists_decomp_trans {big mid x : String}
    (h1 : ∃ s t, big = s ++ mid ++ t) (h2 : ∃ s t, mid = s ++ x ++ t) :
    ∃ s t, big = s ++ x ++ t := by
  obtain ⟨s1, t1, h1⟩ := h1
  obtain ⟨s2, t2, h2⟩ := h2
  refine ⟨s1 ++ s2, t2 ++ t1, ?_⟩
  rw [h1, h2]
  simp [String.append_assoc]

theorem append_decomp_right {mid x : String} (post : String)
    (h : ∃ s t, mid = s ++ x ++ t) : ∃ s t, mid ++ post = s ++ x ++ t := by
  obtain ⟨s, t, h⟩ := h
  refine ⟨s, t ++ post, ?_⟩
  rw [h]
  simp [String.append_assoc]

theorem dgml_contains_node {files : List SourceControlFile} {f : SourceControlFile}
    (hf : f ∈ files) :
    ∃ s t, create_dgml_as_string files = s ++ dgmlNodeString f.core_paragraph.name ++ t := by
  obtain ⟨s, t, hst⟩ := strConcat_decomp (fun f => dgmlNodeString f.core_paragraph.name) hf
  refine ⟨("<?xml version=\"1.0\" encoding=\"utf-8\"?>" ++
    "<DirectedGraph xmlns=\"http://schemas.microsoft.com/vs/2009/dgml\">") ++
    "<Nodes>" ++ s,
    t ++ "</Nodes>" ++
      ("<Links>" ++ strConcat (files.map dgmlLinksString) ++ "</Links>") ++
      "</DirectedGraph>", ?_⟩
  rw [create_dgml_eq, hst]
  simp only [String.append_assoc]

theorem dgml_contains_core_link {files : List SourceControlFile} {f : SourceControlFile}
    {d : String} (hf : f ∈ files) (hd : d ∈ f.core_paragraph.depends) :
    ∃ s t, create_dgml_as_string files =
      s ++ dgmlLinkString f.core_paragraph.name d ++ t := by
  have hbig : ∃ s t, create_dgml_as_string files =
      s ++ strConcat (files.map dgmlLinksString) ++ t := by
    refine ⟨("<?xml version=\"1.0\" encoding=\"utf-8\"?>" ++
      "<DirectedGraph xmlns=\"http://schemas.microsoft.com/vs/2009/dgml\">") ++
      ("<Nodes>" ++
        strConcat (files.map (fun f => dgmlNodeString f.core_paragraph.name)) ++
        "</Nodes>") ++ "<Links>",
      "</Links>" ++ "</DirectedGraph>", ?_⟩
    rw [create_dgml_eq]
    simp only [String.append_assoc]
  have hmid : ∃ s t, strConcat (files.map dgmlLinksString) =
      s ++ dgmlLinksString f ++ t := strConcat_decomp dgmlLinksString hf
  have hinner : ∃ s t, dgmlLinksString f =
      s ++ dgmlLinkString f.core_paragraph.name d ++ t := by
    rw [dgmlLinksString]
    exact append_decomp_right _ (strConcat_decomp (dgmlLinkString f.core_paragraph.name) hd)
  exact exists_decomp_trans (exists_decomp_trans hbig hmid) hinner

theorem dgml_contains_feature_link {files : List SourceControlFile} {f : SourceControlFile}
    {fp : FeatureParagraph} {d : String} (hf : f ∈ files) (hfp : fp ∈ f.feature_paragraphs)
    (hd : d ∈ fp.depends) :
    ∃ s t, create_dgml_as_string files =
      s ++ dgmlLinkString f.core_paragraph.name d ++ t := by
  have hbig : ∃ s t, create_dgml_as_string files =
      s ++ strConcat (files.map dgmlLinksString) ++ t := by
    refine ⟨("<?xml version=\"1.0\" encoding=\"utf-8\"?>" ++
      "<DirectedGraph xmlns=\"http://schemas.microsoft.com/vs/2009/dgml\">") ++
      ("<Nodes>" ++
        strConcat (files.map (fun f => dgmlNodeString f.core_paragraph.name)) ++
        "</Nodes>") ++ "<Links>",
      "</Links>" ++ "</DirectedGraph>", ?_⟩
    rw [create_dgml_eq]
    simp only [String.append_assoc]
  have hmid : ∃ s t, strConcat (files.map dgmlLinksString) =
      s ++ dgmlLinksString f ++ t := strConcat_decomp dgmlLinksString hf
  have hinner : ∃ s t, dgmlLinksString f =
      s ++ dgmlLinkString f.core_paragraph.name d ++ t := by
    have hfeat : ∃ s t,
        strConcat (f.feature_paragraphs.map (fun feature_paragraph =>
          strConcat (feature_paragraph.depends.map
            (dgmlLinkString f.core_paragraph.name)))) =
        s ++ dgmlLinkString f.core_paragraph.name d ++ t :=
      exists_decomp_trans
        (strConcat_decomp (fun feature_paragraph =>
          strConcat (feature_paragraph.depends.map
            (dgmlLinkString f.core_paragraph.name))) hfp)
        (strConcat_decomp (dgmlLinkString f.core_paragraph.name) hd)
    obtain ⟨s, t, hst⟩ := hfeat
    refine ⟨strConcat (f.core_paragraph.depends.map
      (dgmlLinkString f.core_paragraph.name)) ++ s, t, ?_⟩
    rw [dgmlLinksString, hst]
    simp [String.append_assoc]
  exact exists_decomp_trans (exists_decomp_trans hbig hmid) hinner

set_option maxRecDepth 8192 in
/-- Claim C1, counterexample: with the non-empty roots `["a"]` and the
`--dgml` switch over a two-port registry, the rendered graph is produced
from the full loaded registry and not from the mapping built by the
closure builder: the closure of `a` is `[("a", [])]` and does not reach
`b`, yet the printed graph is the dgml rendering of all loaded ports, it
differs from the dgml rendering of the ports of the closure, and it
contains a node element for `b`. -/
theorem claim_C1_counterexample :
    build_dependency_tree [] ["a"] twoSingletonRegistry = [("a", [])] ∧
    perform_output ["a"] ["--dgml"] twoSingletonRegistry =
      [create_dgml_as_string twoSingletonRegistry] ∧
    perform_output ["a"] ["--dgml"] twoSingletonRegistry ≠
      [create_dgml_as_string [⟨⟨"a", []⟩, []⟩]] ∧
    (∃ s t, create_dgml_as_string twoSingletonRegistry =
      s ++ dgmlNodeString "b" ++ t) ∧
    cmContains (build_dependency_tree [] ["a"] twoSingletonRegistry) "b" = false := by
  have ha : find_port twoSingletonRegistry "a" = some ⟨⟨"a", []⟩, []⟩ := rfl
  have hbuild : build_dependency_tree [] ["a"] twoSingletonRegistry = [("a", [])] := by
    rw [build_cons_some [] (by decide) ha]
    simp only [build_nil]
    decide
  refine ⟨hbuild, by decide, by decide, ?_, by rw [hbuild]; decide⟩
  exact dgml_contains_node (show (⟨⟨"b", []⟩, []⟩ : SourceControlFile) ∈
    twoSingletonRegistry by decide)

/-- Claim C1, amended: whenever at least one root is given and a graph
switch is present, the printed graph is `create_graph_as_string` applied
to the switches and the full loaded registry; the closure map is computed
but not consulted on the graph path. -/
theorem claim_C1_amended (roots switches : List String) (files : List SourceControlFile)
    (hroots : 1 ≤ roots.length) (hsw : switches.isEmpty = false) :
    perform_output roots switches files = [create_graph_as_string switches files] := by
  simp [perform_output, hroots, hsw]

/-- Witness for the amended claim C1, at roots `["a"]` with the `--dgml`
switch. -/
theorem claim_C1_amended_witness :
    perform_output ["a"] ["--dgml"] twoSingletonRegistry =
      [create_graph_as_string ["--dgml"] twoSingletonRegistry] :=
  claim_C1_amended ["a"] ["--dgml"] twoSingletonRegistry (by decide) (by decide)

/-- Claim C2, counterexample: `build_dependency_tree` invoked with an
empty roots sequence returns the empty map even over a non-empty
registry: the port `a` exists, yet the result has no key at all. -/
theorem claim_C2_counterexample :
    build_dependency_tree [] [] singlePortRegistry = [] ∧
    registryNames singlePortRegistry = ["a"] ∧
    cmContains (build_dependency_tree [] [] singlePortRegistry) "a" = false := by
  refine ⟨build_nil [] singlePortRegistry, rfl, ?_⟩
  rw [build_nil]
  decide

/-- Claim C2, amended: with an empty names sequence the builder leaves the
map unchanged (so starting from the empty map it yields the empty map);
the full-registry listing is instead produced by `perform_and_exit`
iterating the loaded ports directly, one line per port with its declared
core dependency names. -/
theorem claim_C2_amended (tree : ClosureMap) (files : List SourceControlFile) :
    build_dependency_tree tree [] files = tree ∧
    perform_output [] [] files =
      files.map (fun f => depend_line f.core_paragraph.name f.core_paragraph.depends) := by
  refine ⟨build_nil tree files, ?_⟩
  simp [perform_output]

/-- Claim C3: closure construction is total (the builder is defined by
well-founded recursion on the number of registry names not yet keyed, so
it terminates on every finite registry, cyclic ones included); a name
that is already a key is not re-expanded; and on the registry with the
cycle A → B → A, root `A` yields exactly the keys `A` and `B`, each bound
to its declared dependency list. -/
theorem claim_C3_cycle_termination (files : List SourceControlFile) (tree : ClosureMap)
    (n : String) (rest : List String) (h : cmContains tree n = true) :
    build_dependency_tree tree (n :: rest) files = build_dependency_tree tree rest files ∧
    build_dependency_tree [] ["A"] cycleRegistry = [("A", ["B"]), ("B", ["A"])] ∧
    cmKeys (build_dependency_tree [] ["A"] cycleRegistry) = ["A", "B"] := by
  have hA : find_port cycleRegistry "A" = some ⟨⟨"A", ["B"]⟩, []⟩ := rfl
  have hB : find_port cycleRegistry "B" = some ⟨⟨"B", ["A"]⟩, []⟩ := rfl
  have hcy : build_dependency_tree [] ["A"] cycleRegistry =
      [("A", ["B"]), ("B", ["A"])] := by
    rw [build_cons_some [] (by decide) hA]
    rw [build_cons_some [] (by decide) hB]
    rw [build_cons_mem [] _ (by decide)]
    simp only [build_nil]
    decide
  exact ⟨build_cons_mem rest files h, hcy, by rw [hcy]; rfl⟩

/-- Witness for claim C3: skipping an already-keyed name, instantiated at
a concrete map, plus the concrete cycle result. -/
theorem claim_C3_witness :
    build_dependency_tree [("x", [])] ["x"] [] = build_dependency_tree [("x", [])] [] [] ∧
    build_dependency_tree [] ["A"] cycleRegistry = [("A", ["B"]), ("B", ["A"])] ∧
    cmKeys (build_dependency_tree [] ["A"] cycleRegistry) = ["A", "B"] :=
  claim_C3_cycle_termination [] [("x", [])] "x" [] (by decide)

/-- Claim C4: a name with no port in the registry is never added as a key
by closure construction, is silently skipped, and the remaining names are
still processed; no error is signalled (the builder is a total
function). -/
theorem claim_C4_unknown_name (files : List SourceControlFile) (tree : ClosureMap)
    (names : List String) (n : String) (h1 : find_port files n = none)
    (h2 : cmContains tree n = false) :
    cmContains (build_dependency_tree tree names files) n = false ∧
    ∀ rest, build_dependency_tree tree (n :: rest) files =
      build_dependency_tree tree rest files := by
  constructor
  · by_contra hcontra
    have h : cmContains (build_dependency_tree tree names files) n = true := by
      simpa using hcontra
    rcases cmContains_build_elim h with h' | h'
    · rw [h2] at h'
      exact absurd h' (by simp)
    · exact absurd h' (find_port_eq_none_iff.mp h1)
  · intro rest
    exact build_cons_none rest h2 h1

/-- Witness for claim C4: the unknown root `zzz` gets no key and is
skipped while `a` is still processed. -/
theorem claim_C4_witness :
    cmContains (build_dependency_tree [] ["zzz", "a"] twoSingletonRegistry) "zzz" = false ∧
    build_dependency_tree [] ["zzz"] twoSingletonRegistry =
      build_dependency_tree [] [] twoSingletonRegistry := by
  constructor
  · exact (claim_C4_unknown_name twoSingletonRegistry [] ["zzz", "a"] "zzz" rfl
      (by decide)).1
  · exact (claim_C4_unknown_name twoSingletonRegistry [] ["zzz", "a"] "zzz" rfl
      (by decide)).2 []

/-- Claim C5: every closure entry is printed as the package name, a colon
and a space, then the dependency names joined by comma-space; an entry
with no dependencies prints as the name followed by `": "` alone. -/
theorem claim_C5_plain_lines :
    perform_output ["foo", "lonely"] [] fooRegistry = ["foo: bar, baz", "lonely: "] ∧
    depend_line "foo" ["bar", "baz"] = "foo: bar, baz" ∧
    ∀ name : String, depend_line name [] = name ++ ": " := by
  have hfoo : find_port fooRegistry "foo" = some ⟨⟨"foo", ["bar", "baz"]⟩, []⟩ := rfl
  have hlonely : find_port fooRegistry "lonely" = some ⟨⟨"lonely", []⟩, []⟩ := rfl
  have hbar : find_port fooRegistry "bar" = none := rfl
  have hbaz : find_port fooRegistry "baz" = none := rfl
  have hbuild : build_dependency_tree [] ["foo", "lonely"] fooRegistry =
      [("foo", ["bar", "baz"]), ("lonely", [])] := by
    rw [build_cons_some ["lonely"] (by decide) hfoo]
    rw [build_cons_none ["baz"] (by decide) hbar]
    rw [build_cons_none [] (by decide) hbaz]
    simp only [build_nil]
    rw [build_cons_some [] (by decide) hlonely]
    simp only [build_nil]
    decide
  refine ⟨?_, by decide, ?_⟩
  · have hout : perform_output ["foo", "lonely"] [] fooRegistry =
        (build_dependency_tree [] ["foo", "lonely"] fooRegistry).map
          (fun e => depend_line e.1 e.2) := by
      simp [perform_output]
    rw [hout, hbuild]
    decide
  · intro name
    show name ++ ": " ++ String.intercalate ", " [] = name ++ ": "
    rw [show String.intercalate ", " ([] : List String) = "" from rfl, String.append_empty]

/-- Claim C6, counterexample: with empty roots the plain listing follows
registry storage order, not ascending key order: over a registry stored
as `b` then `a` the lines come out `b` first, although `a < b`. -/
theorem claim_C6_counterexample :
    perform_output [] [] unsortedRegistry = ["b: ", "a: "] ∧
    registryNames unsortedRegistry = ["b", "a"] ∧
    ¬ List.Sorted (· < ·) ["b", "a"] ∧ ("a" : String) < "b" := by
  refine ⟨by decide, rfl, ?_, ?_⟩
  · intro h
    have hba : ("b" : String) < "a" := (List.sorted_cons.mp h).1 "a" (by simp)
    have hfalse : string_lt "b" "a" = true := (string_lt_iff_lt "b" "a").mpr hba
    exact absurd hfalse (by decide)
  · exact (string_lt_iff_lt "a" "b").mp (by decide)

/-- Claim C6, amended: when roots are given the listing is the
closure map in ascending lexicographic key order (it is a sorted
`std::map`); when roots are empty the listing enumerates the loaded
registry in storage order, which is ascending only if the registry is
stored sorted. -/
theorem claim_C6_amended (files : List SourceControlFile) (roots : List String)
    (h : 1 ≤ roots.length) :
    perform_output roots [] files =
      (build_dependency_tree [] roots files).map (fun e => depend_line e.1 e.2) ∧
    List.Sorted (· < ·) (cmKeys (build_dependency_tree [] roots files)) ∧
    perform_output [] [] files =
      files.map (fun f => depend_line f.core_paragraph.name f.core_paragraph.depends) := by
  refine ⟨by simp [perform_output, h], build_sorted files roots, by simp [perform_output]⟩

/-- Witness for the amended claim C6 over the unsorted registry. -/
theorem claim_C6_amended_witness :
    perform_output ["a"] [] unsortedRegistry =
      (build_dependency_tree [] ["a"] unsortedRegistry).map
        (fun e => depend_line e.1 e.2) ∧
    List.Sorted (· < ·) (cmKeys (build_dependency_tree [] ["a"] unsortedRegistry)) ∧
    perform_output [] [] unsortedRegistry =
      unsortedRegistry.map
        (fun f => depend_line f.core_paragraph.name f.core_paragraph.depends) :=
  claim_C6_amended unsortedRegistry ["a"] (by decide)

/-- Claim C7: the dot rendering is the header, then for every package
with a non-empty dependency list its dash-normalized node statement
followed by one normalized edge statement per dependency, packages with
an empty dependency list contributing nothing to the body, and exactly
one trailing synthetic node labelled with the count of those
singletons. -/
theorem claim_C7_dot_rendering :
    (∀ files : List SourceControlFile,
      create_dot_as_string files =
        "digraph G\x7b rankdir=LR; edge [minlen=3]; overlap=false;" ++
          strConcat (files.map (fun f => dotPortString f.core_paragraph)) ++
          dotEmptyNode (singletonCount files)) ∧
    create_dot_as_string dotSpecRegistry =
      "digraph G\x7b rankdir=LR; edge [minlen=3]; overlap=false;" ++ "A;" ++ "A -> B;" ++
        "empty [label=\"1 singletons...\"]; \x7d" ∧
    create_dot_as_string dashRegistry =
      "digraph G\x7b rankdir=LR; edge [minlen=3]; overlap=false;" ++ "my_lib;" ++
        "my_lib -> other_lib;" ++ "empty [label=\"0 singletons...\"]; \x7d" := by
  refine ⟨create_dot_eq, by decide, by decide⟩

set_option maxRecDepth 8192 in
/-- Claim C8: the dgml rendering has one node element per package
(zero-dependency packages included) under the original non-normalized
name, one link element per core dependency edge and one per
feature-scoped dependency edge (source the package, target the
dependency, the feature itself not recorded), and all nodes precede all
links inside separate `Nodes` and `Links` containers. -/
theorem claim_C8_dgml_rendering :
    (∀ files : List SourceControlFile,
      create_dgml_as_string files =
        ("<?xml version=\"1.0\" encoding=\"utf-8\"?>" ++
          "<DirectedGraph xmlns=\"http://schemas.microsoft.com/vs/2009/dgml\">") ++
          ("<Nodes>" ++
            strConcat (files.map (fun f => dgmlNodeString f.core_paragraph.name)) ++
            "</Nodes>") ++
          ("<Links>" ++ strConcat (files.map dgmlLinksString) ++ "</Links>") ++
          "</DirectedGraph>") ∧
    create_dgml_as_string featureRegistry =
      "<?xml version=\"1.0\" encoding=\"utf-8\"?>" ++
        "<DirectedGraph xmlns=\"http://schemas.microsoft.com/vs/2009/dgml\">" ++
        "<Nodes>" ++ "<Node Id=\"A\" />" ++ "</Nodes>" ++
        "<Links>" ++ "<Link Source=\"A\" Target=\"B\" />" ++
        "<Link Source=\"A\" Target=\"C\" />" ++ "</Links>" ++ "</DirectedGraph>" := by
  refine ⟨create_dgml_eq, by decide⟩

/-- Claim C9: mode selection in `create_graph_as_string` is ordered, not
symmetric: the `--dot` switch is tested first, so when both switches are
present the dot rendering is produced and the `--dgml` switch is ignored;
when neither switch is present the empty string is returned. -/
theorem claim_C9_mode_precedence (switches : List String) (files : List SourceControlFile) :
    (switches.contains OPTION_DOT = true →
      create_graph_as_string switches files = create_dot_as_string files) ∧
    (switches.contains OPTION_DOT = false → switches.contains OPTION_DGML = false →
      create_graph_as_string switches files = "") := by
  constructor
  · intro h
    rw [create_graph_as_string, if_pos h]
  · intro h1 h2
    have h1' : ¬ (switches.contains OPTION_DOT = true) := by
      rw [h1]
      exact Bool.false_ne_true
    have h2' : ¬ (switches.contains OPTION_DGML = true) := by
      rw [h2]
      exact Bool.false_ne_true
    rw [create_graph_as_string, if_neg h1', if_neg h2']

/-- Witness for claim C9: both switches present yields the dot rendering;
no switches yields the empty string. -/
theorem claim_C9_witness :
    create_graph_as_string ["--dot", "--dgml"] dotSpecRegistry =
      create_dot_as_string dotSpecRegistry ∧
    create_graph_as_string [] dotSpecRegistry = "" :=
  ⟨(claim_C9_mode_precedence ["--dot", "--dgml"] dotSpecRegistry).1 (by decide),
    (claim_C9_mode_precedence [] dotSpecRegistry).2 (by decide) (by decide)⟩

/-- Claim C10: the dgml renderer interpolates names into the output
verbatim, with no XML escaping: for every loaded port the output contains
the exact substring `<Node Id="NAME" />` with the raw stored name, and
the exact raw `<Link Source="NAME" Target="DEP" />` substring for each
core and feature dependency. -/
theorem claim_C10_verbatim_names (files : List SourceControlFile) (f : SourceControlFile)
    (hf : f ∈ files) :
    (∃ s t, create_dgml_as_string files =
      s ++ ("<Node Id=\"" ++ f.core_paragraph.name ++ "\" />") ++ t) ∧
    (∀ d ∈ f.core_paragraph.depends, ∃ s t, create_dgml_as_string files =
      s ++ ("<Link Source=\"" ++ f.core_paragraph.name ++ "\" Target=\"" ++ d ++
        "\" />") ++ t) ∧
    (∀ fp ∈ f.feature_paragraphs, ∀ d ∈ fp.depends, ∃ s t,
      create_dgml_as_string files =
        s ++ ("<Link Source=\"" ++ f.core_paragraph.name ++ "\" Target=\"" ++ d ++
          "\" />") ++ t) := by
  refine ⟨dgml_contains_node hf, fun d hd => ?_, fun fp hfp d hd => ?_⟩
  · exact dgml_contains_core_link hf hd
  · exact dgml_contains_feature_link hf hfp hd

/-- Witness for claim C10 over a port whose name holds a double quote and
an ampersand: the node and link elements embed the characters as
stored. -/
theorem claim_C10_witness :
    (∃ s t, create_dgml_as_string specialRegistry =
      s ++ ("<Node Id=\"" ++ "a\"b&c" ++ "\" />") ++ t) ∧
    (∃ s t, create_dgml_as_string specialRegistry =
      s ++ ("<Link Source=\"" ++ "a\"b&c" ++ "\" Target=\"" ++ "d\"e" ++ "\" />") ++ t) := by
  constructor
  · exact (claim_C10_verbatim_names specialRegistry specialFile (by decide)).1
  · exact (claim_C10_verbatim_names specialRegistry specialFile (by decide)).2.1
      "d\"e" (by decide)

end DependInfo
